import Mathlib

/-!
Verification of the squash-tui branch browser (src/main.rs) against its
natural-language specification. The Rust program is shallowly embedded:
the `App` struct and its state-transition methods become Lean definitions,
the crossterm event types become inductives, and the startup/event-loop
control flow of `main` becomes explicit state passing over finite event
traces.
-/

namespace SquashTui

/-- An opaque backend (git2) error value; only its identity matters. -/
structure GitError where
  code : Nat
deriving DecidableEq, Repr

/-- The application state, from `struct App` (src/main.rs lines 14-20):
`exit`, `branches`, `selected_branch_index`, `selector_cursor_index`. -/
structure App where
  exit : Bool
  branches : List String
  selected_branch_index : Option Nat
  selector_cursor_index : Nat
deriving DecidableEq, Repr

/-- `App::default()` (derived `Default`, line 14): all fields zeroed. -/
def App.defaultApp : App :=
  { exit := false, branches := [], selected_branch_index := none,
    selector_cursor_index := 0 }

/-- `App::select_next` (lines 66-75): increment the cursor, wrapping to 0
when the incremented value is `>= branches.len()`. -/
def App.select_next (s : App) : App :=
  let cur := s.selector_cursor_index + 1
  if cur ≥ s.branches.length then
    { s with selector_cursor_index := 0 }
  else
    { s with selector_cursor_index := cur }

/-- `App::select_previous` (lines 77-90): return unchanged on an empty
list; wrap from 0 to `len - 1`; otherwise decrement. -/
def App.select_previous (s : App) : App :=
  if s.branches.length = 0 then s
  else if s.selector_cursor_index = 0 then
    { s with selector_cursor_index := s.branches.length - 1 }
  else
    { s with selector_cursor_index := s.selector_cursor_index - 1 }

/-- `App::select_current` (lines 92-94): unconditionally store the cursor
as the selected index. -/
def App.select_current (s : App) : App :=
  { s with selected_branch_index := some s.selector_cursor_index }

/-- `App::exit` (lines 96-98): set the exit flag. (Named `request_exit`
here because `App.exit` is the field accessor.) -/
def App.request_exit (s : App) : App :=
  { s with exit := true }

/-- Key codes distinguished by `handle_key_event` (crossterm `KeyCode`). -/
inductive KeyCode where
  | Char (c : Char)
  | Enter
  | Other
deriving DecidableEq, Repr

/-- Key event kinds (crossterm `KeyEventKind`). -/
inductive KeyEventKind where
  | Press
  | Release
  | Repeat
deriving DecidableEq, Repr

/-- A crossterm `KeyEvent`, reduced to the fields the program reads. -/
structure KeyEvent where
  code : KeyCode
  kind : KeyEventKind
deriving DecidableEq, Repr

/-- A crossterm `Event`: a key event or anything else. -/
inductive Event where
  | Key (k : KeyEvent)
  | Other
deriving DecidableEq, Repr

/-- `App::handle_key_event` (lines 56-64): dispatch on the key code. -/
def App.handle_key_event (s : App) (k : KeyEvent) : App :=
  match k.code with
  | KeyCode.Char c =>
      if c = 'q' then s.request_exit
      else if c = 'j' then s.select_next
      else if c = 'k' then s.select_previous
      else s
  | KeyCode.Enter => s.select_current
  | KeyCode.Other => s

/-- `App::handle_events` (lines 44-54): only key-press events are handled;
release/repeat key events and non-key events are discarded. -/
def App.handle_events (s : App) (e : Event) : App :=
  match e with
  | Event.Key k => if k.kind = KeyEventKind.Press then s.handle_key_event k else s
  | Event.Other => s

/-- `App::run` (lines 36-42) over a finite trace of input events: while the
exit flag is unset, draw (rendering does not mutate state) and handle the
next event. The trace ending models no further input arriving. -/
def App.runLoop (s : App) : List Event → App
  | [] => s
  | e :: rest => if s.exit then s else App.runLoop (s.handle_events e) rest

/-- One item yielded by `repo.branches(None)?` (line 28): either the
iterator errs (the inner `?` on line 29), or it yields a branch whose
`name()` call (line 30) either errs, or returns `some` valid-UTF-8 text,
or returns `none` (git2 returns `Ok(None)` for a non-UTF-8 name, which
the code `.unwrap()`s). -/
inductive BranchItem where
  | err (e : GitError)
  | branch (nameResult : Except GitError (Option String))
deriving Repr

/-- How `App::init` terminates: normally, with a propagated error (`?`),
or by panicking on `.unwrap()` of a `None` branch name (line 30). -/
inductive InitOutcome where
  | ok
  | error (e : GitError)
  | panicked
deriving DecidableEq, Repr

/-- The `for` loop of `App::init` (lines 28-32): push each valid name in
order; on the first failure stop, leaving the names already pushed in
place (Rust `&mut self`, no rollback). -/
def App.initLoop (s : App) : List BranchItem → App × InitOutcome
  | [] => (s, InitOutcome.ok)
  | BranchItem.err e :: _ => (s, InitOutcome.error e)
  | BranchItem.branch (Except.error e) :: _ => (s, InitOutcome.error e)
  | BranchItem.branch (Except.ok none) :: _ => (s, InitOutcome.panicked)
  | BranchItem.branch (Except.ok (some n)) :: rest =>
      App.initLoop { s with branches := s.branches ++ [n] } rest

/-- `App::init` (lines 23-34): reset `branches` and `selected_branch_index`
(lines 25-26, the cursor is not reset), then open the repository
(`Repository::open_from_env()?`, line 27) and enumerate its branches.
`env` is the backend collaborator: an error when repository discovery
fails, otherwise the item sequence the branch iterator yields. -/
def App.init (s : App) (env : Except GitError (List BranchItem)) :
    App × InitOutcome :=
  let s0 := { s with branches := ([] : List String),
                     selected_branch_index := (none : Option Nat) }
  match env with
  | Except.error e => (s0, InitOutcome.error e)
  | Except.ok items => App.initLoop s0 items

/-- `main` (lines 188-195) over a finite input trace: construct the
default `App`, call `init` and bind its result to the unused
`_init_result` (line 191: the outcome is never inspected), then enter the
event loop unconditionally. A panic during init aborts the process, so
only in that case is the loop not entered. -/
def mainModel (env : Except GitError (List BranchItem))
    (events : List Event) : App :=
  let p := App.defaultApp.init env
  match p.2 with
  | InitOutcome.panicked => p.1
  | _ => p.1.runLoop events

/-- A ratatui `ListItem` reduced to what `render_branch` sets: the display
text and whether the blue style modifier was applied. -/
structure ListItem where
  text : String
  blue : Bool
deriving DecidableEq, Repr

/-- `App::render_branch` (lines 137-152): the display name gets the
pointer marker as a two-character prefix exactly when `is_selected`, two
spaces otherwise, and the item is styled blue exactly when `is_pointed`. -/
def render_branch (is_selected : Bool) (branch_name : String)
    (is_pointed : Bool) : ListItem :=
  let display_name :=
    if is_selected then "► " ++ branch_name else "  " ++ branch_name
  { text := display_name, blue := is_pointed }

/-- The enumeration loop of `App::render_branches` (lines 114-126), with
`k` the index of the first remaining branch: `is_selected` is whether
`selected_branch_index` equals the row index, `is_pointed` whether the
cursor equals the row index. -/
def renderItemsFrom (selected : Option Nat) (cursor : Nat) :
    Nat → List String → List ListItem
  | _, [] => []
  | k, n :: rest =>
      render_branch (decide (selected = some k)) n (decide (cursor = k)) ::
        renderItemsFrom selected cursor (k + 1) rest

/-- The list items `App::render_branches` builds for the branch pane. -/
def App.branchItems (s : App) : List ListItem :=
  renderItemsFrom s.selected_branch_index s.selector_cursor_index 0 s.branches

/-- A ratatui `Rect` (x, y, width, height). -/
structure Rect where
  x : Nat
  y : Nat
  width : Nat
  height : Nat
deriving DecidableEq, Repr

instance : Inhabited Rect := ⟨⟨0, 0, 0, 0⟩⟩

/-- Modelled from the spec: the cassowary-based `Layout::split` of the
ratatui crate, invoked by `App::layout` (lines 100-112), is an external
dependency whose source is not in this repository. §4.2 of the spec fixes
its contract for this program: each `Constraint::Length(w)` column keeps
its fixed nominal width `w` regardless of the area size, columns are laid
out left to right separated by the configured spacing, and an area too
narrow for them is clipped by the rendering backend, not reflowed. This
function places columns of the given widths accordingly, starting at `x`,
all sharing the row's `y` and height. -/
def splitRow (x y h spacing : Nat) : List Nat → List Rect
  | [] => []
  | w :: ws =>
      { x := x, y := y, width := w, height := h } ::
        splitRow (x + w + spacing) y h spacing ws

/-- `App::layout` (lines 100-112): one vertical `Length(100)` row (its
nominal height, clipping delegated to the backend) split into three
horizontal `Length(50)` columns with `spacing(1)`, returning
`(cells[0], cells[1], cells[2])`. -/
def App.layout (area : Rect) : Rect × Rect × Rect :=
  let cells := splitRow area.x area.y 100 1 [50, 50, 50]
  (cells.getD 0 default, cells.getD 1 default, cells.getD 2 default)

/-- The states the running program can be in: the `App::default()` state
after `init` ran against some backend environment, closed under handling
input events (the body of the event loop). -/
inductive Reachable : App → Prop
  | init (env : Except GitError (List BranchItem)) :
      Reachable (App.defaultApp.init env).1
  | step (s : App) (e : Event) : Reachable s → Reachable (s.handle_events e)

/-- A cursor move, the two operations quantified over in the frame claim. -/
inductive Move where
  | next
  | prev
deriving DecidableEq, Repr

/-- Apply one cursor move. -/
def App.applyMove (s : App) : Move → App
  | Move.next => s.select_next
  | Move.prev => s.select_previous

/-- Apply a finite sequence of cursor moves in order. -/
def App.applyMoves (s : App) (ms : List Move) : App :=
  ms.foldl App.applyMove s

/-! ### Frame lemmas: which fields each operation leaves untouched -/

theorem App.select_next_frame (s : App) :
    s.select_next.branches = s.branches ∧
    s.select_next.selected_branch_index = s.selected_branch_index ∧
    s.select_next.exit = s.exit := by
  unfold App.select_next
  dsimp only
  split <;> exact ⟨rfl, rfl, rfl⟩

theorem App.select_previous_frame (s : App) :
    s.select_previous.branches = s.branches ∧
    s.select_previous.selected_branch_index = s.selected_branch_index ∧
    s.select_previous.exit = s.exit := by
  unfold App.select_previous
  split
  · exact ⟨rfl, rfl, rfl⟩
  · split <;> exact ⟨rfl, rfl, rfl⟩

/-- Replacing the cursor by its current value is the identity. -/
theorem App.cursor_update_eq (s : App) (v : Nat)
    (h : v = s.selector_cursor_index) :
    ({ s with selector_cursor_index := v } : App) = s := by
  subst h
  rfl

/-! ### Cursor arithmetic -/

/-- On an in-bounds cursor, `select_next` is increment modulo the length. -/
theorem App.select_next_cursor_mod (s : App)
    (h : s.selector_cursor_index < s.branches.length) :
    s.select_next.selector_cursor_index =
      (s.selector_cursor_index + 1) % s.branches.length := by
  unfold App.select_next
  dsimp only
  split
  · have heq : s.selector_cursor_index + 1 = s.branches.length := by omega
    simp [heq]
  · have hlt : s.selector_cursor_index + 1 < s.branches.length := by omega
    simp [Nat.mod_eq_of_lt hlt]

/-- Iterating `select_next` `k` times keeps the branch list and moves the
cursor by `k` modulo the length. -/
theorem App.select_next_iterate (s : App) (k : Nat)
    (h : s.selector_cursor_index < s.branches.length) :
    (App.select_next^[k] s).branches = s.branches ∧
    (App.select_next^[k] s).selector_cursor_index =
      (s.selector_cursor_index + k) % s.branches.length := by
  have hlen : 0 < s.branches.length := by omega
  induction k with
  | zero => simpa using (Nat.mod_eq_of_lt h).symm
  | succ n ih =>
    obtain ⟨hb, hc⟩ := ih
    have hlt : (App.select_next^[n] s).selector_cursor_index <
        (App.select_next^[n] s).branches.length := by
      rw [hb, hc]
      exact Nat.mod_lt _ hlen
    constructor
    · rw [Function.iterate_succ_apply', (App.select_next_frame _).1, hb]
    · rw [Function.iterate_succ_apply', App.select_next_cursor_mod _ hlt, hc,
        hb, Nat.mod_add_mod, ← Nat.add_assoc]

/-- C5: for every state with a non-empty branch list of length `N` and an
in-range cursor, applying `select_next` exactly `N` times returns the
cursor to its original value. -/
theorem C5_full_cycle (s : App)
    (h : s.selector_cursor_index < s.branches.length) :
    (App.select_next^[s.branches.length] s).selector_cursor_index =
      s.selector_cursor_index := by
  rw [(App.select_next_iterate s s.branches.length h).2, Nat.add_mod_right,
    Nat.mod_eq_of_lt h]

/-- Witness for C5 at `branches = ["main", "dev"]`, cursor 0. -/
theorem C5_full_cycle_witness :
    (App.select_next^[(App.mk false ["main", "dev"] none 0).branches.length]
        (App.mk false ["main", "dev"] none 0)).selector_cursor_index =
      (App.mk false ["main", "dev"] none 0).selector_cursor_index :=
  C5_full_cycle (App.mk false ["main", "dev"] none 0) (by decide)

/-- C6: on a non-empty branch list with an in-range cursor,
`select_previous` is the exact two-sided inverse of `select_next`. -/
theorem C6_prev_next_inverse (s : App)
    (h : s.selector_cursor_index < s.branches.length) :
    s.select_next.select_previous = s ∧ s.select_previous.select_next = s := by
  obtain ⟨e, b, sel, c⟩ := s
  simp only at h
  have hlen0 : ¬ b.length = 0 := by omega
  constructor
  · by_cases hc : c + 1 ≥ b.length
    · have h1 : (App.mk e b sel c).select_next = App.mk e b sel 0 := by
        simp [App.select_next, hc]
      have h2 : (App.mk e b sel 0).select_previous =
          App.mk e b sel (b.length - 1) := by
        simp [App.select_previous, hlen0]
      rw [h1, h2]
      simp only [App.mk.injEq]
      exact ⟨trivial, trivial, trivial, by omega⟩
    · have h1 : (App.mk e b sel c).select_next = App.mk e b sel (c + 1) := by
        simp [App.select_next, hc]
      have h2 : (App.mk e b sel (c + 1)).select_previous = App.mk e b sel c := by
        simp [App.select_previous, hlen0]
      rw [h1, h2]
  · by_cases hc0 : c = 0
    · subst hc0
      have h1 : (App.mk e b sel 0).select_previous =
          App.mk e b sel (b.length - 1) := by
        simp [App.select_previous, hlen0]
      have hge : b.length - 1 + 1 ≥ b.length := by omega
      have h2 : (App.mk e b sel (b.length - 1)).select_next =
          App.mk e b sel 0 := by
        simp [App.select_next, hge]
      rw [h1, h2]
    · have h1 : (App.mk e b sel c).select_previous =
          App.mk e b sel (c - 1) := by
        simp [App.select_previous, hlen0, hc0]
      have hlt : ¬ c - 1 + 1 ≥ b.length := by omega
      have h2 : (App.mk e b sel (c - 1)).select_next = App.mk e b sel c := by
        simp only [App.select_next]
        rw [if_neg hlt]
        simp only [App.mk.injEq]
        exact ⟨trivial, trivial, trivial, by omega⟩
      rw [h1, h2]

/-- C7 counterexample: on the state with an empty branch list and cursor
3, `select_next` changes the cursor (to 0), so it is not a no-op on every
empty-list state. -/
theorem C7_counterexample :
    (App.mk false [] none 3).select_next.selector_cursor_index ≠
      (App.mk false [] none 3).selector_cursor_index := by
  decide

/-- C7 amended: on an empty branch list, `select_previous` is a no-op and
never panics, while `select_next` sets the cursor to 0 (hence is a no-op
exactly when the cursor is already 0, the value it has in every reachable
empty-list state) and never panics. -/
theorem C7_empty_list_moves (s : App) (h : s.branches = []) :
    s.select_previous = s ∧
    s.select_next = { s with selector_cursor_index := 0 } ∧
    (s.selector_cursor_index = 0 → s.select_next = s) := by
  obtain ⟨e, b, sel, c⟩ := s
  simp only at h
  subst h
  refine ⟨rfl, rfl, ?_⟩
  intro hc
  simp only at hc
  subst hc
  rfl

/-- Witness for C7 at the default (reachable) empty-list state. -/
theorem C7_empty_list_moves_witness :
    App.defaultApp.select_previous = App.defaultApp ∧
      App.defaultApp.select_next =
        { App.defaultApp with selector_cursor_index := 0 } ∧
      (App.defaultApp.selector_cursor_index = 0 →
        App.defaultApp.select_next = App.defaultApp) :=
  C7_empty_list_moves App.defaultApp rfl

/-- C2 counterexample: in the default state (empty branch list,
`selected_branch_index = none`), `select_current` sets
`selected_branch_index` to `some 0`; it does not remain `none`. -/
theorem C2_counterexample :
    App.defaultApp.branches = [] ∧
    App.defaultApp.select_current.selected_branch_index ≠ none := by
  decide

/-- C2 amended: on an empty branch list `select_current` does not panic
but is not a no-op either: it sets `selected_branch_index` to
`some selector_cursor_index` (so `some 0` in the reachable empty state),
leaving the branch list and the cursor unchanged. -/
theorem C2_confirm_on_empty (s : App) (h : s.branches = []) :
    s.select_current.selected_branch_index = some s.selector_cursor_index ∧
    s.select_current.branches = [] ∧
    s.select_current.selector_cursor_index = s.selector_cursor_index := by
  refine ⟨rfl, ?_, rfl⟩
  simpa [App.select_current] using h

/-- Witness for C2 at the default (reachable) empty-list state. -/
theorem C2_confirm_on_empty_witness :
    App.defaultApp.select_current.selected_branch_index =
        some App.defaultApp.selector_cursor_index ∧
      App.defaultApp.select_current.branches = [] ∧
      App.defaultApp.select_current.selector_cursor_index =
        App.defaultApp.selector_cursor_index :=
  C2_confirm_on_empty App.defaultApp rfl

/-- Witness for C6 at `branches = ["main", "dev", "feat"]`, cursor 2. -/
theorem C6_prev_next_inverse_witness :
    (App.mk false ["main", "dev", "feat"] none 2).select_next.select_previous =
        App.mk false ["main", "dev", "feat"] none 2 ∧
      (App.mk false ["main", "dev", "feat"] none 2).select_previous.select_next =
        App.mk false ["main", "dev", "feat"] none 2 :=
  C6_prev_next_inverse (App.mk false ["main", "dev", "feat"] none 2) (by decide)

/-! ### Characterization of the key dispatch -/

theorem App.handle_key_event_char (s : App) (ch : Char) (kind : KeyEventKind) :
    s.handle_key_event ⟨KeyCode.Char ch, kind⟩ =
      if ch = 'q' then s.request_exit
      else if ch = 'j' then s.select_next
      else if ch = 'k' then s.select_previous
      else s := rfl

/-! ### Preservation of the branch list -/

theorem App.handle_key_event_branches (s : App) (k : KeyEvent) :
    (s.handle_key_event k).branches = s.branches := by
  rcases k with ⟨code, kind⟩
  cases code with
  | Char ch =>
      rw [App.handle_key_event_char]
      split_ifs
      · rfl
      · exact (App.select_next_frame s).1
      · exact (App.select_previous_frame s).1
      · rfl
  | Enter => rfl
  | Other => rfl

theorem App.handle_events_branches (s : App) (e : Event) :
    (s.handle_events e).branches = s.branches := by
  cases e with
  | Key k =>
      show (if k.kind = KeyEventKind.Press
        then s.handle_key_event k else s).branches = s.branches
      split_ifs
      · exact App.handle_key_event_branches s k
      · rfl
  | Other => rfl

theorem App.runLoop_branches : ∀ (events : List Event) (s : App),
    (s.runLoop events).branches = s.branches
  | [], _ => rfl
  | e :: rest, s => by
      show (if s.exit then s
        else (s.handle_events e).runLoop rest).branches = s.branches
      split_ifs
      · rfl
      · rw [App.runLoop_branches rest (s.handle_events e),
          App.handle_events_branches]

/-! ### The cursor-in-bounds invariant of reachable states -/

theorem App.initLoop_cursor : ∀ (items : List BranchItem) (s : App),
    (App.initLoop s items).1.selector_cursor_index = s.selector_cursor_index
  | [], _ => rfl
  | BranchItem.err _ :: _, _ => rfl
  | BranchItem.branch (Except.error _) :: _, _ => rfl
  | BranchItem.branch (Except.ok none) :: _, _ => rfl
  | BranchItem.branch (Except.ok (some _)) :: rest, _ =>
      App.initLoop_cursor rest _

theorem App.init_cursor (s : App) (env : Except GitError (List BranchItem)) :
    (s.init env).1.selector_cursor_index = s.selector_cursor_index := by
  cases env with
  | error e => rfl
  | ok items => exact App.initLoop_cursor items _

theorem App.select_next_inv (s : App) (h : s.branches ≠ []) :
    s.select_next.selector_cursor_index < s.select_next.branches.length := by
  obtain ⟨e, b, sel, c⟩ := s
  have hb : b ≠ [] := h
  have hlen : 0 < b.length := List.length_pos.mpr hb
  by_cases hc : c + 1 ≥ b.length
  · have h1 : (App.mk e b sel c).select_next = App.mk e b sel 0 := by
      simp [App.select_next, hc]
    rw [h1]
    exact hlen
  · have h1 : (App.mk e b sel c).select_next = App.mk e b sel (c + 1) := by
      simp [App.select_next, hc]
    rw [h1]
    show c + 1 < b.length
    omega

theorem App.select_previous_inv (s : App)
    (h : s.branches ≠ [] → s.selector_cursor_index < s.branches.length) :
    s.select_previous.branches ≠ [] →
      s.select_previous.selector_cursor_index <
        s.select_previous.branches.length := by
  obtain ⟨e, b, sel, c⟩ := s
  intro hne
  have hb : b ≠ [] := by
    have hfr := (App.select_previous_frame (App.mk e b sel c)).1
    rw [hfr] at hne
    exact hne
  have hlen : 0 < b.length := List.length_pos.mpr hb
  have hcur : c < b.length := h hb
  have hlen0 : ¬ b.length = 0 := by omega
  by_cases hc0 : c = 0
  · subst hc0
    have h1 : (App.mk e b sel 0).select_previous =
        App.mk e b sel (b.length - 1) := by
      simp [App.select_previous, hlen0]
    rw [h1]
    show b.length - 1 < b.length
    omega
  · have h1 : (App.mk e b sel c).select_previous =
        App.mk e b sel (c - 1) := by
      simp [App.select_previous, hlen0, hc0]
    rw [h1]
    show c - 1 < b.length
    omega

theorem App.handle_key_event_inv (s : App) (k : KeyEvent)
    (h : s.branches ≠ [] → s.selector_cursor_index < s.branches.length) :
    (s.handle_key_event k).branches ≠ [] →
      (s.handle_key_event k).selector_cursor_index <
        (s.handle_key_event k).branches.length := by
  rcases k with ⟨code, kind⟩
  cases code with
  | Char ch =>
      rw [App.handle_key_event_char]
      split_ifs
      · exact h
      · intro hne
        apply App.select_next_inv
        rw [(App.select_next_frame s).1] at hne
        exact hne
      · exact App.select_previous_inv s h
      · exact h
  | Enter => exact h
  | Other => exact h

theorem App.handle_events_inv (s : App) (e : Event)
    (h : s.branches ≠ [] → s.selector_cursor_index < s.branches.length) :
    (s.handle_events e).branches ≠ [] →
      (s.handle_events e).selector_cursor_index <
        (s.handle_events e).branches.length := by
  cases e with
  | Key k =>
      show (if k.kind = KeyEventKind.Press
          then s.handle_key_event k else s).branches ≠ [] →
        (if k.kind = KeyEventKind.Press
          then s.handle_key_event k else s).selector_cursor_index <
          (if k.kind = KeyEventKind.Press
            then s.handle_key_event k else s).branches.length
      split_ifs
      · exact App.handle_key_event_inv s k h
      · exact h
  | Other => exact h

theorem App.init_default_inv (env : Except GitError (List BranchItem)) :
    (App.defaultApp.init env).1.branches ≠ [] →
      (App.defaultApp.init env).1.selector_cursor_index <
        (App.defaultApp.init env).1.branches.length := by
  intro hne
  have hc : (App.defaultApp.init env).1.selector_cursor_index = 0 :=
    App.init_cursor _ _
  rw [hc]
  exact List.length_pos.mpr hne

/-- C4: every reachable state with a non-empty branch list has its cursor
strictly below the branch-list length; since reachability is closed under
all the event-loop operations, each of them preserves this bound. -/
theorem C4_cursor_in_bounds (s : App) (hr : Reachable s)
    (hne : s.branches ≠ []) :
    s.selector_cursor_index < s.branches.length := by
  induction hr with
  | init env => exact App.init_default_inv env hne
  | step s0 e hr0 ih => exact App.handle_events_inv s0 e ih hne

/-- Witness for C4 at the state reached by loading one branch name. -/
theorem C4_cursor_in_bounds_witness :
    (App.defaultApp.init (Except.ok
        [BranchItem.branch (Except.ok (some "main"))])).1.selector_cursor_index <
      (App.defaultApp.init (Except.ok
        [BranchItem.branch (Except.ok (some "main"))])).1.branches.length :=
  C4_cursor_in_bounds _
    (Reachable.init (Except.ok [BranchItem.branch (Except.ok (some "main"))]))
    (by decide)

/-! ### Frame property of cursor-move sequences -/

theorem App.applyMoves_frame : ∀ (ms : List Move) (s : App),
    (App.applyMoves s ms).selected_branch_index = s.selected_branch_index ∧
    (App.applyMoves s ms).branches = s.branches
  | [], _ => ⟨rfl, rfl⟩
  | m :: rest, s => by
      have hrec := App.applyMoves_frame rest (s.applyMove m)
      have hm : (s.applyMove m).selected_branch_index =
            s.selected_branch_index ∧
          (s.applyMove m).branches = s.branches := by
        cases m
        · exact ⟨(App.select_next_frame s).2.1, (App.select_next_frame s).1⟩
        · exact ⟨(App.select_previous_frame s).2.1,
            (App.select_previous_frame s).1⟩
      exact ⟨hrec.1.trans hm.1, hrec.2.trans hm.2⟩

/-- C8: once `select_current` has stored the cursor as the selection, any
finite sequence of `select_next`/`select_previous` moves leaves both the
selection and the branch list unchanged. -/
theorem C8_selection_survives_moves (s : App) (ms : List Move) :
    (App.applyMoves s.select_current ms).selected_branch_index =
      some s.selector_cursor_index ∧
    (App.applyMoves s.select_current ms).branches = s.branches := by
  obtain ⟨h1, h2⟩ := App.applyMoves_frame ms s.select_current
  exact ⟨h1, h2⟩

/-! ### The branch-pane rows -/

theorem renderItemsFrom_getElem (sel : Option Nat) (cur : Nat) :
    ∀ (l : List String) (k i : Nat), i < l.length →
      (renderItemsFrom sel cur k l)[i]? =
        some (render_branch (decide (sel = some (k + i))) (l.getD i "")
          (decide (cur = k + i)))
  | [], _, i, h => by simp at h
  | n :: rest, k, 0, _ => by simp [renderItemsFrom]
  | n :: rest, k, i + 1, h => by
      have hlt : i < rest.length := by
        simpa using Nat.lt_of_succ_lt_succ h
      have hrec := renderItemsFrom_getElem sel cur rest (k + 1) i hlt
      have hk : k + (i + 1) = k + 1 + i := by omega
      simp only [renderItemsFrom, List.getElem?_cons_succ,
        List.getD_cons_succ, hk]
      exact hrec

/-- C3 counterexample: cursor on row 1, confirmed selection on row 0. The
cursor row's display line has no "► " marker while the selected row's
does, so the marker does not track the cursor. -/
theorem C3_counterexample :
    (App.mk false ["a", "b"] (some 0) 1).selector_cursor_index = 1 ∧
    ((App.mk false ["a", "b"] (some 0) 1).branchItems.map ListItem.text)[1]? =
      some "  b" ∧
    ((App.mk false ["a", "b"] (some 0) 1).branchItems.map ListItem.text)[0]? =
      some "► a" := by
  decide

/-- C3 amended: the markers are swapped relative to the claim: row `i`'s
display line carries the two-character "► " marker exactly when `i` is the
confirmed `selected_branch_index` (two spaces otherwise), and it carries
the blue visual emphasis exactly when `i` is the cursor row, independent
of the selection. -/
theorem C3_markers_swapped (s : App) (i : Nat) (h : i < s.branches.length) :
    s.branchItems[i]? = some
      { text := (if s.selected_branch_index = some i then "► " else "  ") ++
          s.branches.getD i "",
        blue := decide (s.selector_cursor_index = i) } := by
  have hh := renderItemsFrom_getElem s.selected_branch_index
    s.selector_cursor_index s.branches 0 i h
  rw [App.branchItems, hh]
  by_cases hsel : s.selected_branch_index = some i
  · simp [render_branch, hsel]
  · simp [render_branch, hsel]

/-- Witness for C3 on row 0 of the counterexample state. -/
theorem C3_markers_swapped_witness :
    (App.mk false ["a", "b"] (some 0) 1).branchItems[0]? = some
      { text := (if (App.mk false ["a", "b"] (some 0) 1).selected_branch_index =
            some 0 then "► " else "  ") ++
          (App.mk false ["a", "b"] (some 0) 1).branches.getD 0 "",
        blue := decide
          ((App.mk false ["a", "b"] (some 0) 1).selector_cursor_index = 0) } :=
  C3_markers_swapped (App.mk false ["a", "b"] (some 0) 1) 0 (by decide)

/-- C9: for every input area, `layout` returns exactly three panes, all of
the fixed nominal width 50, horizontally adjacent with a one-unit gap,
sharing the row's vertical placement, independent of the area's size. -/
theorem C9_three_fixed_panes (area : Rect) :
    (App.layout area).1.width = 50 ∧
    (App.layout area).2.1.width = 50 ∧
    (App.layout area).2.2.width = 50 ∧
    (App.layout area).2.1.x =
      (App.layout area).1.x + (App.layout area).1.width + 1 ∧
    (App.layout area).2.2.x =
      (App.layout area).2.1.x + (App.layout area).2.1.width + 1 ∧
    (App.layout area).1.x = area.x ∧
    (App.layout area).1.y = area.y ∧
    (App.layout area).2.1.y = area.y ∧
    (App.layout area).2.2.y = area.y :=
  ⟨rfl, rfl, rfl, rfl, rfl, rfl, rfl, rfl, rfl⟩

/-- C1: with repository discovery failing, `main` still enters the event
loop instead of aborting: the init outcome is an error, yet a subsequent
Enter key press is processed and mutates the selection. -/
theorem C1_init_failure_swallowed :
    (App.defaultApp.init (Except.error { code := 7 })).2 =
      InitOutcome.error { code := 7 } ∧
    (mainModel (Except.error { code := 7 })
        [Event.Key { code := KeyCode.Enter, kind := KeyEventKind.Press }]
      ).selected_branch_index = some 0 := by
  decide

/-- Pushing a run of valid branch names advances `initLoop` to the rest of
the items with the names appended to the branch list. -/
theorem App.initLoop_ok_names : ∀ (names : List String) (s : App)
    (rest : List BranchItem),
    App.initLoop s
        (names.map (fun n => BranchItem.branch (Except.ok (some n))) ++ rest) =
      App.initLoop { s with branches := s.branches ++ names } rest
  | [], s, rest => by simp
  | n :: ns, s, rest => by
      simp only [List.map_cons, List.cons_append, App.initLoop, List.append_eq]
      rw [App.initLoop_ok_names ns]
      congr 1
      simp

/-- C10: when branch enumeration fails after `names` were already pushed,
`init` keeps exactly that prefix (no rollback) while reporting the error,
and since `main` discards the init result, the event loop runs over this
partial branch list for its whole lifetime. -/
theorem C10_partial_init_runs_loop (names : List String) (e : GitError)
    (rest : List BranchItem) (events : List Event) :
    (App.defaultApp.init (Except.ok
        (names.map (fun n => BranchItem.branch (Except.ok (some n))) ++
          BranchItem.err e :: rest))).1.branches = names ∧
    (App.defaultApp.init (Except.ok
        (names.map (fun n => BranchItem.branch (Except.ok (some n))) ++
          BranchItem.err e :: rest))).2 = InitOutcome.error e ∧
    (mainModel (Except.ok
        (names.map (fun n => BranchItem.branch (Except.ok (some n))) ++
          BranchItem.err e :: rest)) events).branches = names := by
  have hinit : App.defaultApp.init (Except.ok
      (names.map (fun n => BranchItem.branch (Except.ok (some n))) ++
        BranchItem.err e :: rest)) =
      ({ App.defaultApp with branches := names }, InitOutcome.error e) := by
    show App.initLoop _ _ = _
    rw [App.initLoop_ok_names]
    rfl
  refine ⟨?_, ?_, ?_⟩
  · rw [hinit]
  · rw [hinit]
  · have hm : mainModel (Except.ok
        (names.map (fun n => BranchItem.branch (Except.ok (some n))) ++
          BranchItem.err e :: rest)) events =
        ({ App.defaultApp with branches := names } : App).runLoop events := by
      unfold mainModel
      rw [hinit]
    rw [hm, App.runLoop_branches]

end SquashTui
